import Mathlib

/-!
Verification development for the `file_organizer` repository
(`src/main.rs`, `src/file_organizer/mod.rs`, `src/file_organizer/settings.rs`).

The Rust sources are shallowly embedded below: paths are lists of path
segments, `chrono::DateTime<Utc>` values are civil date-time records ordered
by their second count since the Unix epoch, the filesystem is an explicit
snapshot (which paths are directories, directory listings, which destination
folders exist), and filesystem mutations are recorded as an explicit effect
list instead of being performed.  `OsString` keeps track of whether a file
name is valid UTF-8, so the `to_str().unwrap()` panic path of the source is
representable.
-/

/-! ## String utilities

Executable counterparts of the string operations the Rust code relies on
(`std` path extension splitting, `str::to_lowercase`, byte-wise string
ordering, digit parsing for `chrono` date parsing, zero padding for
`chrono` formatting).  They work on `List Char` so that every definition
reduces inside the kernel. -/

/-- Byte-wise comparison of strings as Rust's `Ord for str` performs it;
comparing Unicode scalar values character by character yields the same
order as comparing the UTF-8 byte sequences. -/
def charListLe : List Char → List Char → Bool
  | [], _ => true
  | _ :: _, [] => false
  | c :: cs, d :: ds =>
    if c.toNat < d.toNat then true
    else if d.toNat < c.toNat then false
    else charListLe cs ds

/-- Splits a character list at its last '.' into the part before and the
part after; `none` when no '.' occurs.  Mirrors the search for the final
`.` in Rust's `Path::extension`. -/
def lastDot : List Char → Option (List Char × List Char)
  | [] => none
  | c :: cs =>
    match lastDot cs with
    | some (b, a) => some (c :: b, a)
    | none => if c = '.' then some ([], cs) else none

/-- Rust `Path::extension` on the final path component: the portion after
the final `.`, or `none` when there is no `.` or the name starts with `.`
and contains no further `.` (hidden-file stem rule). -/
def rustExtension (filename : String) : Option String :=
  match lastDot filename.toList with
  | none => none
  | some (before, after) =>
    if before = [] then none else some (String.mk after)

/-- Rust `str::to_lowercase` (the extensions in recipes are ASCII, where
`Char.toLower` agrees with Unicode lowercasing). -/
def rust_to_lowercase (s : String) : String :=
  String.mk (s.toList.map Char.toLower)

/-- Rust `str::starts_with(".")` specialised to the hidden-file check of
`run_for_file`. -/
def isHiddenName (s : String) : Bool :=
  match s.toList with
  | '.' :: _ => true
  | _ => false

/-- Splits a character list on a separator character, keeping empty
pieces, as `String::split` does. -/
def splitOnChar (sep : Char) : List Char → List (List Char)
  | [] => [[]]
  | x :: xs =>
    match splitOnChar sep xs with
    | h :: t => if x = sep then [] :: h :: t else (x :: h) :: t
    | [] => [[x]]

/-- Accumulator for `digitsToNat`. -/
def digitsToNatAux : List Char → Nat → Option Nat
  | [], acc => some acc
  | c :: cs, acc =>
    if c.isDigit then digitsToNatAux cs (acc * 10 + (c.toNat - 48)) else none

/-- Parses a non-empty all-digit character list as a natural number, the
way `chrono`'s numeric format specifiers consume digit runs. -/
def digitsToNat : List Char → Option Nat
  | [] => none
  | c :: cs => digitsToNatAux (c :: cs) 0

/-- Pads a numeral string with leading zeros up to the given width, as
`chrono`'s zero-padded format specifiers do. -/
def zeroPad (w : Nat) (s : String) : String :=
  if s.length < w then String.mk (List.replicate (w - s.length) '0') ++ s else s

/-- Two-digit zero-padded rendering (`%m`, `%d`, `%H`, `%M`, `%S`). -/
def pad2 (n : Nat) : String := zeroPad 2 (Nat.repr n)

/-- `chrono` `%Y`: the proleptic Gregorian year, zero-padded to 4 digits,
with a sign for negative years. -/
def formatYear (y : Int) : String :=
  if y < 0 then "-" ++ zeroPad 4 (Nat.repr (-y).toNat)
  else zeroPad 4 (Nat.repr y.toNat)

/-! ## Dates

`chrono::DateTime<Utc>` is embedded as a civil UTC date-time record.
`chrono` compares date-times as instants, which for civil records is
comparison of their second count since the Unix epoch (sub-second
precision is below the granularity of every date in the program: the
boundary is always a midnight). -/

/-- A civil UTC date-time, the embedding of `chrono::DateTime<Utc>`. -/
structure UtcDateTime where
  year : Int
  month : Nat
  day : Nat
  hour : Nat
  minute : Nat
  second : Nat
deriving DecidableEq

/-- Days from the civil epoch 1970-01-01 for a proleptic Gregorian date
(Howard Hinnant's `days_from_civil` algorithm, exact for every year
reachable from the program's date parser, i.e. `year ≥ 0`). -/
def daysFromCivil (y : Int) (m d : Nat) : Int :=
  let yy : Int := if m ≤ 2 then y - 1 else y
  let era : Int := (if 0 ≤ yy then yy else yy - 399) / 400
  let yoe : Int := yy - era * 400
  let doy : Int := (153 * (Int.ofNat (if 2 < m then m - 3 else m + 9)) + 2) / 5
    + Int.ofNat d - 1
  let doe : Int := yoe * 365 + yoe / 4 - yoe / 100 + doy
  era * 146097 + doe - 719468

/-- The instant of a civil UTC date-time, in seconds since the Unix
epoch; `chrono` orders `DateTime<Utc>` values by this instant. -/
def UtcDateTime.toSecs (t : UtcDateTime) : Int :=
  daysFromCivil t.year t.month t.day * 86400
    + Int.ofNat t.hour * 3600 + Int.ofNat t.minute * 60 + Int.ofNat t.second

/-- Gregorian leap-year rule. -/
def isLeapYear (y : Nat) : Bool :=
  (y % 4 = 0 && y % 100 ≠ 0) || y % 400 = 0

/-- Number of days of a month (month numbered 1..12). -/
def daysInMonth (y m : Nat) : Nat :=
  if m = 1 then 31
  else if m = 2 then (if isLeapYear y then 29 else 28)
  else if m = 3 then 31
  else if m = 4 then 30
  else if m = 5 then 31
  else if m = 6 then 30
  else if m = 7 then 31
  else if m = 8 then 31
  else if m = 9 then 30
  else if m = 10 then 31
  else if m = 11 then 30
  else if m = 12 then 31
  else 0

/-- Parses a `YYYY-MM-DD` date string and validates it as a calendar
date, the effect of `chrono`'s `%Y-%m-%d` parsing (the year is an
unsigned digit run; `chrono` additionally accepts signed years, which the
program never stores). -/
def parseYMD (s : String) : Option (Nat × Nat × Nat) :=
  match splitOnChar '-' s.toList with
  | [yc, mc, dc] =>
    match digitsToNat yc, digitsToNat mc, digitsToNat dc with
    | some y, some m, some d =>
      if 1 ≤ m && m ≤ 12 && 1 ≤ d && d ≤ daysInMonth y m then some (y, m, d)
      else none
    | _, _, _ => none
  | _ => none

/-- Renders a `chrono` format character list against a date-time: the
strftime subset the program's recipes use (`%Y %m %d %H %M %S %%`);
other characters are copied literally. -/
def renderFormat (t : UtcDateTime) : List Char → String
  | [] => ""
  | '%' :: c :: rest =>
    (if c = 'Y' then formatYear t.year
     else if c = 'm' then pad2 t.month
     else if c = 'd' then pad2 t.day
     else if c = 'H' then pad2 t.hour
     else if c = 'M' then pad2 t.minute
     else if c = 'S' then pad2 t.second
     else if c = '%' then "%"
     else String.mk ['%', c]) ++ renderFormat t rest
  | c :: rest => String.mk [c] ++ renderFormat t rest

/-- `date.format(fmt).to_string()` of `chrono`, for the supported
specifier subset. -/
def date_format (t : UtcDateTime) (fmt : String) : String :=
  renderFormat t fmt.toList

/-! ## Data model

Embeddings of the Rust data types.  File-system paths (`PathBuf`) are
lists of path segments, with `PathBuf::join` of a relative segment being
list append of one element. -/

/-- Modelled from the spec: the `DateComparator` enum
(`{CreationDate, ModificationDate}`, default `ModificationDate`,
spec §3 and §6) is referenced by `mod.rs` but its declaration is not
present in the provided `settings.rs`. -/
inductive DateComparator where
  | CreationDate
  | ModificationDate
deriving DecidableEq

/-- The `Recipe` struct of `settings.rs`, plus the `date_comparator`
field modelled from the spec (optional, default `ModificationDate`);
`PathBuf` fields are path-segment lists. -/
structure Recipe where
  name : String
  source_folder : List String
  destination_folder : List String
  first_level_folder : Option String
  second_level_folder : Option String
  subfolders : Option (List String)
  allowed_extensions : Option (List String)
  move_files : Bool
  last_run : Option String
  date_comparator : Option DateComparator
deriving DecidableEq

/-- The `Settings` struct of `settings.rs`: the recipe sequence and the
path the settings were loaded from. -/
structure Settings where
  recipes : List Recipe
  path : List String
deriving DecidableEq

/-- The `FileOrganizer` struct of `mod.rs`. -/
structure FileOrganizer where
  settings : Settings
  is_dry_run : Bool
  is_iterative : Bool
deriving DecidableEq

/-- The `FileOrganizerStats` struct of `mod.rs`; the `u32` counters are
Nats (directory listings are far from 2^32 entries) and the wall-clock
`elapsed_time` field is not representable in a pure embedding and is
omitted. -/
structure FileOrganizerStats where
  files_matched : Nat
  files_processed : Nat
deriving DecidableEq

/-- An `OsString` file-name component: either valid UTF-8 or opaque
non-UTF-8 data (identified by a tag). -/
inductive OsString where
  | valid : String → OsString
  | invalid : Nat → OsString
deriving DecidableEq

/-- `OsStr::to_str`: `some` exactly for valid UTF-8. -/
def OsString.to_str : OsString → Option String
  | OsString.valid s => some s
  | OsString.invalid _ => none

/-- One `DirEntry` of a source-directory snapshot: its file-name
component, whether its path `is_file()`, its modification instant and its
creation instant (`metadata.created()` can be unsupported, hence the
`Option`). -/
structure Entry where
  filename : OsString
  isFile : Bool
  modified : UtcDateTime
  created : Option UtcDateTime
deriving DecidableEq

/-- The value a `run_for_file` call produces: `Ok(bool)` or
`Err(message)` of the Rust `anyhow::Result<bool>`, or the panic of
`to_str().unwrap()` on a non-UTF-8 file name. -/
inductive FileOutcome where
  | ok : Bool → FileOutcome
  | err : String → FileOutcome
  | panic : FileOutcome
deriving DecidableEq

/-- A filesystem mutation the program would perform; the embedding
records mutations instead of executing them. -/
inductive FsEffect where
  | createDir : List String → FsEffect
  | rename : List String → List String → FsEffect
  | copy : List String → List String → FsEffect
deriving DecidableEq

/-- A filesystem snapshot: which paths are directories, the listing of a
directory (`fs::read_dir`, in unspecified OS order), and which computed
destination folders already exist. -/
structure Env where
  isDir : List String → Bool
  listing : List String → List Entry
  destExists : List String → Bool

/-! ## Operations

Each definition below is the direct translation of the like-named Rust
function of `mod.rs` / `settings.rs`. -/

/-- The extension-normalisation loop of `FileOrganizer::new`: every
entry of every present `allowed_extensions` list is lowercased in place
(`settings` loading itself is file I/O and is taken as an already-parsed
`Settings` value). -/
def FileOrganizer.new (settings : Settings) (is_dry_run is_iterative : Bool) :
    FileOrganizer :=
  { settings :=
      { settings with
        recipes := settings.recipes.map fun r =>
          { r with
            allowed_extensions :=
              r.allowed_extensions.map (fun l => l.map rust_to_lowercase) } }
    is_dry_run := is_dry_run
    is_iterative := is_iterative }

/-- `is_extension_allowed` of `mod.rs`, stated on the file-name
component (the Rust code passes the whole path, whose `extension()` is
computed from that final component; the file name is valid UTF-8 at
every call site, so the `ext.to_str()` failure branch is unreachable). -/
def is_extension_allowed (filename : String)
    (allowed_extensions : Option (List String)) : Bool :=
  match allowed_extensions with
  | some allowed =>
    if allowed.isEmpty then true
    else
      match rustExtension filename with
      | some ext => allowed.contains ext
      | none => false
  | none => false

/-- `get_date_boundary` of `mod.rs`: the stored `last_run` date (or the
`"1970-01-01"` default) parsed with a constant `" 00:00:00 +0000"` time
suffix, anchored at midnight UTC; a parse failure is the recipe-fatal
`Err`. -/
def get_date_boundary (recipe : Recipe) : Except String UtcDateTime :=
  let date_boundary := recipe.last_run.getD "1970-01-01"
  match parseYMD date_boundary with
  | some (y, m, d) => Except.ok ⟨Int.ofNat y, m, d, 0, 0, 0⟩
  | none => Except.error ("input contains invalid characters: " ++ date_boundary)

/-- `date_to_folder_name` of `mod.rs`. -/
def date_to_folder_name (date : UtcDateTime) (format : Option String) : String :=
  match format with
  | some f => date_format date f
  | none => ""

/-- `build_dest_folder` of `mod.rs`: the `for` loop over the present
`subfolders` templates, joining one rendered segment per template. -/
def build_dest_folder (recipe : Recipe) (last_modification_date : UtcDateTime) :
    List String :=
  match recipe.subfolders with
  | some subfolders =>
    subfolders.foldl
      (fun dest_folder subfolder =>
        dest_folder ++ [date_to_folder_name last_modification_date (some subfolder)])
      recipe.destination_folder
  | none => recipe.destination_folder

/-- The reference-timestamp selection inside `run_for_file`: the
`date_comparator` match, defaulting to `ModificationDate`; creation-date
retrieval can fail (`metadata.created()` unsupported), which is the
per-file error of the source. -/
def reference_date (recipe : Recipe) (entry : Entry) : Except String UtcDateTime :=
  match recipe.date_comparator.getD DateComparator.ModificationDate with
  | DateComparator.CreationDate =>
    match entry.created with
    | some d => Except.ok d
    | none => Except.error (recipe.name ++ " - Error getting creation date")
  | DateComparator.ModificationDate => Except.ok entry.modified

/-- `run_for_file` of `mod.rs`: the per-entry pipeline.  Returns the
outcome together with the list of filesystem mutations the call performs
(empty in dry-run mode); the copy/rename syscalls of a real run are taken
to succeed, as the snapshot carries no I/O-failure information. -/
def run_for_file (destExists : List String → Bool) (entry : Entry)
    (recipe : Recipe) (date_boundary : UtcDateTime) (dry_run : Bool) :
    FileOutcome × List FsEffect :=
  if entry.isFile then
    match entry.filename.to_str with
    | none => (FileOutcome.panic, [])
    | some filename =>
      if isHiddenName filename then (FileOutcome.ok false, [])
      else if !(is_extension_allowed filename recipe.allowed_extensions) then
        (FileOutcome.ok false, [])
      else
        match reference_date recipe entry with
        | Except.error e => (FileOutcome.err e, [])
        | Except.ok file_date =>
          if file_date.toSecs < date_boundary.toSecs then (FileOutcome.ok false, [])
          else
            let dest_folder := build_dest_folder recipe file_date
            let dir_effects :=
              if !dry_run && !(destExists dest_folder) then
                [FsEffect.createDir dest_folder]
              else []
            let from_file := recipe.source_folder ++ [filename]
            let dest_file := dest_folder ++ [filename]
            let op_effects :=
              if !dry_run then
                if recipe.move_files then [FsEffect.rename from_file dest_file]
                else [FsEffect.copy from_file dest_file]
              else []
            (FileOutcome.ok true, dir_effects ++ op_effects)
  else (FileOutcome.ok false, [])

/-- Rust `OsStr` order restricted to the embedding: byte-wise on valid
UTF-8 names; the placement of non-UTF-8 names is an abstraction (their
byte content is opaque here), which no claim depends on. -/
def osLe : OsString → OsString → Bool
  | OsString.valid a, OsString.valid b => charListLe a.toList b.toList
  | OsString.valid _, OsString.invalid _ => true
  | OsString.invalid _, OsString.valid _ => false
  | OsString.invalid i, OsString.invalid j => decide (i ≤ j)

/-- Path order on the entries of one directory listing: all entries of a
`read_dir` of `source_folder` share that folder as path prefix, so
`PathBuf` order (`sort_by_key(|entry| entry.path())`) is file-name
order. -/
def entryPathLe (a b : Entry) : Prop := osLe a.filename b.filename = true

instance : DecidableRel entryPathLe := fun a b => by
  unfold entryPathLe; infer_instance

/-- The `entries.sort_by_key(|entry| entry.path())` of
`run_recipe_iterative`: a stable sort by path. -/
def sortEntries (entries : List Entry) : List Entry :=
  List.insertionSort entryPathLe entries

/-- `run_recipe_iterative` of `mod.rs`: enumerate, sort by path, map the
per-entry pipeline.  The Rust function returns only the outcomes; the
embedding pairs each outcome with its entry so that which entries
qualified is expressible (the outcome list is the second projection). -/
def run_recipe_iterative (destExists : List String → Bool) (recipe : Recipe)
    (date_boundary : UtcDateTime) (dry_run : Bool) (entries : List Entry) :
    List (Entry × (FileOutcome × List FsEffect)) :=
  (sortEntries entries).map fun entry =>
    (entry, run_for_file destExists entry recipe date_boundary dry_run)

/-- `run_recipe_parallel` of `mod.rs`: rayon's `par_iter().map().collect()`
attempts every entry exactly once with an unspecified processing order and
collects one outcome per entry; over a snapshot it denotes the same map of
the same pipeline, without the sort. -/
def run_recipe_parallel (destExists : List String → Bool) (recipe : Recipe)
    (date_boundary : UtcDateTime) (dry_run : Bool) (entries : List Entry) :
    List (Entry × (FileOutcome × List FsEffect)) :=
  entries.map fun entry =>
    (entry, run_for_file destExists entry recipe date_boundary dry_run)

/-- The `Ok(true)` test of the statistics loop of `run_recipe`. -/
def isMatchedOutcome : FileOutcome → Bool
  | FileOutcome.ok b => b
  | _ => false

/-- The `files_matched` fold of `run_recipe`: outcomes that are
`Ok(true)`. -/
def countMatched (results : List (Entry × (FileOutcome × List FsEffect))) : Nat :=
  (results.filter fun p => isMatchedOutcome p.2.1).length

/-- `FileOrganizer::run_recipe` of `mod.rs`: directory validation (the
recipe-fatal errors), boundary resolution, strategy selection, and the
statistics fold (timing elided). -/
def run_recipe (env : Env) (is_iterative is_dry_run : Bool) (recipe : Recipe) :
    Except String FileOrganizerStats :=
  if !(env.isDir recipe.source_folder) then
    Except.error (recipe.name ++ " - Source folder not a directory")
  else if !(env.isDir recipe.destination_folder) then
    Except.error (recipe.name ++ " - Target folder not a directory")
  else
    match get_date_boundary recipe with
    | Except.error e => Except.error e
    | Except.ok date_boundary =>
      let entries := env.listing recipe.source_folder
      let results :=
        if is_iterative then
          run_recipe_iterative env.destExists recipe date_boundary is_dry_run entries
        else
          run_recipe_parallel env.destExists recipe date_boundary is_dry_run entries
      Except.ok
        { files_matched := countMatched results
          files_processed := results.length }

/-- The recipe loop of `FileOrganizer::run`: `run_recipe` is called per
recipe in declared order, and the `?` on its result propagates the first
recipe-fatal error, so the loop stops there.  The returned list records,
in order, every recipe for which `run_recipe` was invoked, with its
result. -/
def runRecipes (env : Env) (is_iterative is_dry_run : Bool) :
    List Recipe → List (Recipe × Except String FileOrganizerStats)
  | [] => []
  | r :: rest =>
    match run_recipe env is_iterative is_dry_run r with
    | Except.error e => [(r, Except.error e)]
    | Except.ok s => (r, Except.ok s) :: runRecipes env is_iterative is_dry_run rest

/-- First error among the per-recipe results, if any. -/
def firstError (l : List (Recipe × Except String FileOrganizerStats)) :
    Option String :=
  l.findSome? fun p =>
    match p.2 with
    | Except.error e => some e
    | Except.ok _ => none

/-- Result of one whole engine pass: which recipes were run and with
what result, the final in-memory recipe list, what was persisted (the
single `Settings::save` write of the full recipe list to its origin
path, `none` when no save happened), and the value `run` returns. -/
structure RunOutcome where
  executed : List (Recipe × Except String FileOrganizerStats)
  finalRecipes : List Recipe
  persisted : Option (List String × List Recipe)
  runResult : Except String Unit

/-- `FileOrganizer::run` of `mod.rs`: the recipe loop (aborted by the
first recipe-fatal error via `?`), then — only when every recipe
succeeded and the run is not a dry run — the stamp of every recipe's
`last_run` with the pass's date and the single `Settings::save` write;
console printing elided, `now` is the `Utc::now()` of the stamp. -/
def FileOrganizer.run (env : Env) (o : FileOrganizer) (now : UtcDateTime) :
    RunOutcome :=
  let executed := runRecipes env o.is_iterative o.is_dry_run o.settings.recipes
  match firstError executed with
  | some e => ⟨executed, o.settings.recipes, none, Except.error e⟩
  | none =>
    if o.is_dry_run then ⟨executed, o.settings.recipes, none, Except.ok ()⟩
    else
      let last_run := some (date_format now "%Y-%m-%d")
      let stamped := o.settings.recipes.map fun r => { r with last_run := last_run }
      ⟨executed, stamped, some (o.settings.path, stamped), Except.ok ()⟩

/-! ## Helper lemmas -/

/-- Totality of the byte-wise string order. -/
theorem charListLe_total : ∀ as bs : List Char,
    charListLe as bs = true ∨ charListLe bs as = true := by
  intro as
  induction as with
  | nil => intro bs; left; rfl
  | cons c cs ih =>
    intro bs
    cases bs with
    | nil => right; rfl
    | cons d ds =>
      by_cases h1 : c.toNat < d.toNat
      · left; simp [charListLe, h1]
      · by_cases h2 : d.toNat < c.toNat
        · right; simp [charListLe, h2]
        · rcases ih ds with h | h
          · left; simp [charListLe, h1, h2, h]
          · right; simp [charListLe, h1, h2, h]

/-- Transitivity of the byte-wise string order. -/
theorem charListLe_trans : ∀ as bs cs : List Char,
    charListLe as bs = true → charListLe bs cs = true → charListLe as cs = true := by
  intro as
  induction as with
  | nil => intro bs cs _ _; rfl
  | cons a as' ih =>
    intro bs cs h1 h2
    cases bs with
    | nil => simp [charListLe] at h1
    | cons b bs' =>
      cases cs with
      | nil => simp [charListLe] at h2
      | cons c cs' =>
        simp only [charListLe] at h1 h2 ⊢
        by_cases hab : a.toNat < b.toNat
        · by_cases hbc : b.toNat < c.toNat
          · have hac : a.toNat < c.toNat := Nat.lt_trans hab hbc
            simp [hac]
          · by_cases hcb : c.toNat < b.toNat
            · rw [if_neg hbc, if_pos hcb] at h2; exact absurd h2 (by simp)
            · have hac : a.toNat < c.toNat := by omega
              simp [hac]
        · by_cases hba : b.toNat < a.toNat
          · rw [if_neg hab, if_pos hba] at h1; exact absurd h1 (by simp)
          · rw [if_neg hab, if_neg hba] at h1
            by_cases hbc : b.toNat < c.toNat
            · have hac : a.toNat < c.toNat := by omega
              simp [hac]
            · by_cases hcb : c.toNat < b.toNat
              · rw [if_neg hbc, if_pos hcb] at h2; exact absurd h2 (by simp)
              · rw [if_neg hbc, if_neg hcb] at h2
                have hac : ¬ a.toNat < c.toNat := by omega
                have hca : ¬ c.toNat < a.toNat := by omega
                rw [if_neg hac, if_neg hca]
                exact ih bs' cs' h1 h2

/-- Totality of the `OsString` order. -/
theorem osLe_total : ∀ a b : OsString, osLe a b = true ∨ osLe b a = true := by
  intro a b
  cases a with
  | valid s =>
    cases b with
    | valid t => simpa [osLe] using charListLe_total s.toList t.toList
    | invalid j => left; rfl
  | invalid i =>
    cases b with
    | valid t => right; rfl
    | invalid j => simpa [osLe] using Nat.le_total i j

/-- Transitivity of the `OsString` order. -/
theorem osLe_trans : ∀ a b c : OsString,
    osLe a b = true → osLe b c = true → osLe a c = true := by
  intro a b c h1 h2
  cases a with
  | valid sa =>
    cases b with
    | valid sb =>
      cases c with
      | valid sc =>
        simp only [osLe] at h1 h2 ⊢
        exact charListLe_trans _ _ _ h1 h2
      | invalid k => rfl
    | invalid j =>
      cases c with
      | valid sc => simp [osLe] at h2
      | invalid k => rfl
  | invalid i =>
    cases b with
    | valid sb => simp [osLe] at h1
    | invalid j =>
      cases c with
      | valid sc => simp [osLe] at h2
      | invalid k =>
        simp only [osLe, decide_eq_true_eq] at h1 h2 ⊢
        omega

instance : IsTotal Entry entryPathLe :=
  ⟨fun a b => osLe_total a.filename b.filename⟩

instance : IsTrans Entry entryPathLe :=
  ⟨fun a b c h1 h2 => osLe_trans a.filename b.filename c.filename h1 h2⟩

/-- Folding segment-append over a template list is appending the mapped
segments. -/
theorem foldl_append_map (t : UtcDateTime) (subs : List String) :
    ∀ acc : List String,
      subs.foldl (fun dest_folder s => dest_folder ++ [date_to_folder_name t (some s)]) acc
        = acc ++ subs.map (fun s => date_to_folder_name t (some s)) := by
  induction subs with
  | nil => intro acc; simp
  | cons s ss ih => intro acc; simp [List.foldl_cons, ih, List.append_assoc]

/-- The per-entry pipeline, dry run: the same outcome as a real run on
the same snapshot, and no effects. -/
theorem run_for_file_dry (destExists : List String → Bool) (entry : Entry)
    (recipe : Recipe) (b : UtcDateTime) :
    run_for_file destExists entry recipe b true
      = ((run_for_file destExists entry recipe b false).1, []) := by
  unfold run_for_file
  cases hf : entry.isFile with
  | false => rfl
  | true =>
    simp only [if_true]
    cases hs : entry.filename.to_str with
    | none => rfl
    | some name =>
      by_cases hh : isHiddenName name
      · simp [hh]
      · by_cases he : is_extension_allowed name recipe.allowed_extensions
        · cases hr : reference_date recipe entry with
          | error e => simp [hh, he, hr]
          | ok t =>
            by_cases hlt : t.toSecs < b.toSecs
            · simp [hh, he, hr, hlt]
            · simp [hh, he, hr, hlt]
        · simp [hh, he]

/-- Matched counts agree when the per-entry outcomes agree. -/
theorem countMatched_map_eq (f g : Entry → FileOutcome × List FsEffect)
    (hfg : ∀ e, (f e).1 = (g e).1) :
    ∀ l : List Entry,
      countMatched (l.map fun e => (e, f e)) = countMatched (l.map fun e => (e, g e)) := by
  intro l
  induction l with
  | nil => rfl
  | cons e es ih =>
    simp only [List.map_cons, countMatched, List.filter_cons] at ih ⊢
    rw [hfg e]
    cases isMatchedOutcome (g e).1 <;> simp [ih]

/-- The recipe loop maps over a prefix of recipes that all succeed. -/
theorem runRecipes_append_ok (env : Env) (it dry : Bool) :
    ∀ (pre rest : List Recipe),
      (∀ p ∈ pre, (run_recipe env it dry p).isOk = true) →
      runRecipes env it dry (pre ++ rest)
        = pre.map (fun p => (p, run_recipe env it dry p)) ++ runRecipes env it dry rest := by
  intro pre
  induction pre with
  | nil => intro rest _; rfl
  | cons r rs ih =>
    intro rest hok
    have hr := hok r (List.mem_cons_self r rs)
    cases hres : run_recipe env it dry r with
    | error e => rw [hres] at hr; simp [Except.isOk, Except.toBool] at hr
    | ok s =>
      simp only [List.cons_append, runRecipes, hres, List.map_cons, List.append_eq]
      rw [ih rest (fun p hp => hok p (List.mem_cons_of_mem r hp))]

/-! ## Concrete objects used by witnesses and counterexamples -/

/-- A snapshot in which no path is a directory. -/
def badEnv : Env := ⟨fun _ => false, fun _ => [], fun _ => false⟩

/-- A snapshot in which every path is a directory, listings are empty
and destination folders already exist. -/
def okEnv : Env := ⟨fun _ => true, fun _ => [], fun _ => true⟩

/-- A minimal recipe named `A`. -/
def recipeA : Recipe :=
  ⟨"A", ["inA"], ["outA"], none, none, none, none, false, none, none⟩

/-- A minimal recipe named `B`. -/
def recipeB : Recipe :=
  ⟨"B", ["inB"], ["outB"], none, none, none, none, false, none, none⟩

/-- A recipe whose normalised extension list is `["pdf"]`. -/
def pdfRecipe : Recipe :=
  ⟨"docs", ["in"], ["out"], none, none, none, some ["pdf"], false, none, none⟩

/-- The same recipe as stored by the user, with an upper-case extension
list, before load-time normalisation. -/
def pdfRecipeUpper : Recipe :=
  ⟨"docs", ["in"], ["out"], none, none, none, some ["PDF"], false, none, none⟩

/-! ## Claims -/

/-- Claim C1, evaluation of the code at the failing input: the load-time
normalisation of `FileOrganizer::new` does lowercase the stored list
(`["PDF"]` becomes `["pdf"]`), and `"pdf"` — the lowercase form of the
extension of `Report.PDF` — is a member of the normalised list, yet
`is_extension_allowed` compares the file's extension verbatim, so the
check fails and `run_for_file` skips the file with `Ok(false)`: the file
`Report.PDF` does not qualify under `allowed_extensions = ["pdf"]`. -/
theorem c1_failing_input_eval :
    (FileOrganizer.new ⟨[pdfRecipeUpper], ["settings.json"]⟩ false false).settings.recipes.map
        Recipe.allowed_extensions = [some ["pdf"]]
    ∧ rust_to_lowercase "PDF" = "pdf"
    ∧ (["pdf"] : List String).contains "pdf" = true
    ∧ is_extension_allowed "Report.PDF" (some ["pdf"]) = false
    ∧ (run_for_file (fun _ => false)
        ⟨OsString.valid "Report.PDF", true, ⟨2024, 3, 15, 0, 0, 0⟩, none⟩
        pdfRecipe ⟨1970, 1, 1, 0, 0, 0⟩ false).1 = FileOutcome.ok false := by
  refine ⟨by decide, by decide, by decide, by decide, by decide⟩

/-- Claim C3: with `allowed_extensions = None` no file name passes the
extension check, and with a present empty list every file name passes,
extension-less names included. -/
theorem c3_none_matches_nothing_empty_matches_all :
    ∀ filename : String,
      is_extension_allowed filename none = false
      ∧ is_extension_allowed filename (some []) = true := by
  intro filename
  exact ⟨rfl, rfl⟩

/-- Claim C5: destination construction is the left fold that appends, per
template of the present `subfolders` list in order, one path segment
rendered from the reference timestamp, so it equals the destination
folder followed by the rendered templates in order; an empty template
list leaves the destination folder unchanged. -/
theorem c5_dest_folder_is_left_fold :
    ∀ (recipe : Recipe) (t : UtcDateTime) (subs : List String),
      recipe.subfolders = some subs →
      build_dest_folder recipe t
        = recipe.destination_folder ++ subs.map (fun s => date_to_folder_name t (some s))
      ∧ (subs = [] → build_dest_folder recipe t = recipe.destination_folder) := by
  intro recipe t subs h
  have hmain : build_dest_folder recipe t
      = recipe.destination_folder ++ subs.map (fun s => date_to_folder_name t (some s)) := by
    unfold build_dest_folder
    rw [h]
    exact foldl_append_map t subs recipe.destination_folder
  refine ⟨hmain, fun he => ?_⟩
  rw [hmain, he]
  simp

/-- A recipe with the spec's example templates `["%Y", "%m"]`. -/
def exRecipeYm : Recipe :=
  ⟨"photos", ["in"], ["out"], none, none, some ["%Y", "%m"], none, false, none, none⟩

/-- Witness for C5: for `subfolders = ["%Y", "%m"]` and a file dated
2024-03-15 the destination is `destination_folder/2024/03`. -/
theorem c5_witness :
    exRecipeYm.subfolders = some ["%Y", "%m"]
    ∧ build_dest_folder exRecipeYm ⟨2024, 3, 15, 10, 30, 0⟩ = ["out", "2024", "03"] := by
  refine ⟨rfl, ?_⟩
  rw [(c5_dest_folder_is_left_fold exRecipeYm ⟨2024, 3, 15, 10, 30, 0⟩ ["%Y", "%m"] rfl).1]
  decide

/-- Claim C9: for a regular-file entry whose file name is not valid
UTF-8, `run_for_file` reaches the `to_str().unwrap()` and panics instead
of producing an `Ok`/`Err` value. -/
theorem c9_non_utf8_name_panics :
    ∀ (destExists : List String → Bool) (entry : Entry) (recipe : Recipe)
      (b : UtcDateTime) (dry : Bool),
      entry.isFile = true →
      entry.filename.to_str = none →
      run_for_file destExists entry recipe b dry = (FileOutcome.panic, []) := by
  intro destExists entry recipe b dry hf hn
  unfold run_for_file
  rw [hf, hn]
  rfl

/-- Witness for C9 at a concrete non-UTF-8 entry. -/
theorem c9_witness :
    run_for_file (fun _ => false)
        ⟨OsString.invalid 0, true, ⟨2024, 1, 1, 0, 0, 0⟩, none⟩
        recipeA ⟨1970, 1, 1, 0, 0, 0⟩ false = (FileOutcome.panic, []) :=
  c9_non_utf8_name_panics (fun _ => false)
    ⟨OsString.invalid 0, true, ⟨2024, 1, 1, 0, 0, 0⟩, none⟩
    recipeA ⟨1970, 1, 1, 0, 0, 0⟩ false rfl rfl

/-- Claim C10: an absent `subfolders` field leaves the destination at
`destination_folder`, exactly like a present empty template list. -/
theorem c10_no_subfolders_is_empty_subfolders :
    ∀ (recipe : Recipe) (t : UtcDateTime),
      recipe.subfolders = none →
      build_dest_folder recipe t = recipe.destination_folder
      ∧ build_dest_folder { recipe with subfolders := some [] } t
          = recipe.destination_folder := by
  intro recipe t h
  constructor
  · unfold build_dest_folder
    rw [h]
  · rfl

/-- Witness for C10 at a concrete recipe and timestamp. -/
theorem c10_witness :
    build_dest_folder recipeA ⟨2024, 6, 1, 0, 0, 0⟩ = ["outA"]
    ∧ build_dest_folder { recipeA with subfolders := some [] } ⟨2024, 6, 1, 0, 0, 0⟩
        = ["outA"] :=
  c10_no_subfolders_is_empty_subfolders recipeA ⟨2024, 6, 1, 0, 0, 0⟩ rfl

/-- Claim C2, counterexample: with a snapshot in which no path is a
directory, recipe `A` fails with a recipe-fatal error, and recipe `B`,
declared after it, is never run — the recipe loop invoked `run_recipe`
for `A` only, refuting the claim that every later recipe still runs. -/
theorem c2_counterexample :
    (run_recipe badEnv true false recipeA).isOk = false
    ∧ (runRecipes badEnv true false [recipeA, recipeB]).map (fun p => p.1.name) = ["A"]
    ∧ recipeB.name = "B" := by
  refine ⟨by decide, by decide, rfl⟩

/-- Claim C2 as amended: a recipe-fatal error aborts the whole engine
pass, not just the failing recipe — after a prefix of successful recipes,
the first recipe whose `run_recipe` fails is the last recipe the loop
invokes, and no recipe declared after it is run (the `?` on
`run_recipe`'s result propagates the error out of the loop). -/
theorem c2_fatal_error_aborts_pass :
    ∀ (env : Env) (it dry : Bool) (pre : List Recipe) (r : Recipe) (rest : List Recipe),
      (∀ p ∈ pre, (run_recipe env it dry p).isOk = true) →
      (run_recipe env it dry r).isOk = false →
      runRecipes env it dry (pre ++ r :: rest)
        = pre.map (fun p => (p, run_recipe env it dry p)) ++ [(r, run_recipe env it dry r)] := by
  intro env it dry pre r rest hpre hr
  rw [runRecipes_append_ok env it dry pre (r :: rest) hpre]
  cases hres : run_recipe env it dry r with
  | error e => simp [runRecipes, hres]
  | ok s => rw [hres] at hr; simp [Except.isOk, Except.toBool] at hr

/-- Witness for the amended C2 at a concrete snapshot: recipe `A` fails,
recipe `B` follows it, and the loop output stops at `A`. -/
theorem c2_witness :
    (run_recipe badEnv true false recipeA).isOk = false
    ∧ runRecipes badEnv true false ([] ++ recipeA :: [recipeB])
        = [] ++ [(recipeA, run_recipe badEnv true false recipeA)] := by
  refine ⟨by decide, ?_⟩
  exact c2_fatal_error_aborts_pass badEnv true false [] recipeA [recipeB]
    (by intro p hp; cases hp) (by decide)

/-- Claim C6: in dry-run mode no entry produces any filesystem effect
(no directory creation, no rename, no copy), while every entry's outcome
— and hence the matched-file count of either strategy — is the same as
in a real run on the identical snapshot. -/
theorem c6_dry_run_no_effects_same_outcomes :
    ∀ (destExists : List String → Bool) (entry : Entry) (recipe : Recipe) (b : UtcDateTime),
      (run_for_file destExists entry recipe b true).2 = []
      ∧ (run_for_file destExists entry recipe b true).1
          = (run_for_file destExists entry recipe b false).1
      ∧ ∀ entries : List Entry,
          countMatched (run_recipe_iterative destExists recipe b true entries)
            = countMatched (run_recipe_iterative destExists recipe b false entries)
          ∧ countMatched (run_recipe_parallel destExists recipe b true entries)
            = countMatched (run_recipe_parallel destExists recipe b false entries) := by
  intro destExists entry recipe b
  refine ⟨by rw [run_for_file_dry], by rw [run_for_file_dry], fun entries => ⟨?_, ?_⟩⟩
  · unfold run_recipe_iterative
    exact countMatched_map_eq _ _
      (fun e => by rw [run_for_file_dry]) (sortEntries entries)
  · unfold run_recipe_parallel
    exact countMatched_map_eq _ _
      (fun e => by rw [run_for_file_dry]) entries

/-- First projection of entry-outcome pairing. -/
theorem map_fst_map_pair (f : Entry → FileOutcome × List FsEffect) :
    ∀ l : List Entry, (l.map fun e => (e, f e)).map Prod.fst = l := by
  intro l
  induction l with
  | nil => rfl
  | cons e es ih => simp [ih]

/-- Claim C7: both strategies apply the identical per-entry pipeline to
the same snapshot, so their (entry, outcome, effects) results are
permutations of each other — in particular each entry gets the same
outcome and the same destination effects under both, so the set of
qualifying entries is the same — and the sequential strategy processes
the entries in sorted path order. -/
theorem c7_strategies_agree_up_to_order :
    ∀ (destExists : List String → Bool) (recipe : Recipe) (b : UtcDateTime)
      (dry : Bool) (entries : List Entry),
      List.Perm (run_recipe_iterative destExists recipe b dry entries)
        (run_recipe_parallel destExists recipe b dry entries)
      ∧ (∀ p, p ∈ run_recipe_iterative destExists recipe b dry entries
          ↔ p ∈ run_recipe_parallel destExists recipe b dry entries)
      ∧ (∀ e : Entry,
          (∃ o, (e, o) ∈ run_recipe_iterative destExists recipe b dry entries
            ∧ isMatchedOutcome o.1 = true)
          ↔ (∃ o, (e, o) ∈ run_recipe_parallel destExists recipe b dry entries
            ∧ isMatchedOutcome o.1 = true))
      ∧ (run_recipe_iterative destExists recipe b dry entries).map Prod.fst
          = sortEntries entries
      ∧ List.Sorted entryPathLe
          ((run_recipe_iterative destExists recipe b dry entries).map Prod.fst) := by
  intro destExists recipe b dry entries
  have hperm : List.Perm (sortEntries entries) entries :=
    List.perm_insertionSort entryPathLe entries
  have h1 : List.Perm (run_recipe_iterative destExists recipe b dry entries)
      (run_recipe_parallel destExists recipe b dry entries) :=
    hperm.map fun entry => (entry, run_for_file destExists entry recipe b dry)
  have hfst : (run_recipe_iterative destExists recipe b dry entries).map Prod.fst
      = sortEntries entries := by
    unfold run_recipe_iterative
    exact map_fst_map_pair _ (sortEntries entries)
  refine ⟨h1, fun p => h1.mem_iff, fun e => ?_, hfst, ?_⟩
  · constructor
    · rintro ⟨o, hmem, hm⟩; exact ⟨o, h1.mem_iff.mp hmem, hm⟩
    · rintro ⟨o, hmem, hm⟩; exact ⟨o, h1.mem_iff.mpr hmem, hm⟩
  · rw [hfst]
    exact List.sorted_insertionSort entryPathLe entries

/-- Whatever `get_date_boundary` accepts came from a parsed calendar
date, anchored at midnight. -/
theorem get_date_boundary_shape (recipe : Recipe) (b : UtcDateTime)
    (hb : get_date_boundary recipe = Except.ok b) :
    ∃ y m d, parseYMD (recipe.last_run.getD "1970-01-01") = some (y, m, d)
      ∧ b = ⟨Int.ofNat y, m, d, 0, 0, 0⟩ := by
  simp only [get_date_boundary] at hb
  rcases hp : parseYMD (recipe.last_run.getD "1970-01-01") with _ | ⟨y, m, d⟩
  · rw [hp] at hb
    exact absurd hb (by simp)
  · rw [hp] at hb
    refine ⟨y, m, d, rfl, ?_⟩
    injection hb with h
    exact h.symm

/-- When every qualification rule before the date rule passes, the
pipeline's outcome is decided by the strict `file_date < boundary`
comparison of instants. -/
theorem run_for_file_date_check (destExists : List String → Bool) (entry : Entry)
    (recipe : Recipe) (b : UtcDateTime) (dry : Bool) (name : String) (t : UtcDateTime)
    (hf : entry.isFile = true) (hn : entry.filename = OsString.valid name)
    (hh : isHiddenName name = false)
    (he : is_extension_allowed name recipe.allowed_extensions = true)
    (hr : reference_date recipe entry = Except.ok t) :
    (run_for_file destExists entry recipe b dry).1
      = (if t.toSecs < b.toSecs then FileOutcome.ok false else FileOutcome.ok true) := by
  unfold run_for_file
  rw [hf, hn]
  simp only [OsString.to_str, if_true]
  rw [hh, he]
  simp only [Bool.not_true, Bool.false_eq_true, if_false, hr]
  by_cases hlt : t.toSecs < b.toSecs
  · simp [hlt]
  · simp [hlt]

/-- Claim C4: a successfully resolved boundary is 00:00:00 of its date;
with `last_run = None` the date is 1970-01-01; and for an entry that
passes the file, hidden-name and extension rules with reference
timestamp `t`, the date rule disqualifies it exactly when `t` is
strictly before the boundary instant — in particular an entry whose
reference timestamp equals the boundary instant exactly qualifies. -/
theorem c4_boundary_midnight_inclusive :
    ∀ (recipe : Recipe) (b : UtcDateTime),
      get_date_boundary recipe = Except.ok b →
      (b.hour = 0 ∧ b.minute = 0 ∧ b.second = 0)
      ∧ (recipe.last_run = none → b = ⟨1970, 1, 1, 0, 0, 0⟩)
      ∧ ∀ (destExists : List String → Bool) (entry : Entry) (dry : Bool)
          (name : String) (t : UtcDateTime),
          entry.isFile = true →
          entry.filename = OsString.valid name →
          isHiddenName name = false →
          is_extension_allowed name recipe.allowed_extensions = true →
          reference_date recipe entry = Except.ok t →
          (((run_for_file destExists entry recipe b dry).1 = FileOutcome.ok false
              ↔ t.toSecs < b.toSecs)
           ∧ (t.toSecs = b.toSecs →
              (run_for_file destExists entry recipe b dry).1 = FileOutcome.ok true)) := by
  intro recipe b hb
  obtain ⟨y, m, d, hp, hbeq⟩ := get_date_boundary_shape recipe b hb
  refine ⟨by rw [hbeq]; exact ⟨rfl, rfl, rfl⟩, ?_, ?_⟩
  · intro hnone
    rw [hnone, Option.getD_none] at hp
    have : parseYMD "1970-01-01" = some (1970, 1, 1) := by decide
    rw [this] at hp
    injection hp with h
    rw [hbeq]
    cases h
    rfl
  · intro destExists entry dry name t hf hn hh he hr
    rw [run_for_file_date_check destExists entry recipe b dry name t hf hn hh he hr]
    by_cases hlt : t.toSecs < b.toSecs
    · rw [if_pos hlt]
      exact ⟨by simp [hlt], fun heq => absurd hlt (by omega)⟩
    · rw [if_neg hlt]
      exact ⟨by simp [hlt], fun _ => rfl⟩

/-- A recipe whose stored watermark is 2024-03-15 and whose empty
present extension list lets every file name through. -/
def boundaryRecipe : Recipe :=
  ⟨"bnd", ["in"], ["out"], none, none, none, some [], false, some "2024-03-15", none⟩

/-- Witness for C4: the stored date 2024-03-15 resolves to its midnight,
a file modified exactly at that instant qualifies, and a file modified
the day before does not. -/
theorem c4_witness :
    get_date_boundary boundaryRecipe = Except.ok ⟨2024, 3, 15, 0, 0, 0⟩
    ∧ (run_for_file (fun _ => false)
        ⟨OsString.valid "a", true, ⟨2024, 3, 15, 0, 0, 0⟩, none⟩
        boundaryRecipe ⟨2024, 3, 15, 0, 0, 0⟩ false).1 = FileOutcome.ok true
    ∧ (run_for_file (fun _ => false)
        ⟨OsString.valid "a", true, ⟨2024, 3, 14, 0, 0, 0⟩, none⟩
        boundaryRecipe ⟨2024, 3, 15, 0, 0, 0⟩ false).1 = FileOutcome.ok false := by
  have h := c4_boundary_midnight_inclusive boundaryRecipe ⟨2024, 3, 15, 0, 0, 0⟩ rfl
  refine ⟨rfl, ?_, ?_⟩
  · exact (h.2.2 (fun _ => false) ⟨OsString.valid "a", true, ⟨2024, 3, 15, 0, 0, 0⟩, none⟩
      false "a" ⟨2024, 3, 15, 0, 0, 0⟩ rfl rfl rfl (by decide) rfl).2 (by decide)
  · exact ((h.2.2 (fun _ => false) ⟨OsString.valid "a", true, ⟨2024, 3, 14, 0, 0, 0⟩, none⟩
      false "a" ⟨2024, 3, 14, 0, 0, 0⟩ rfl rfl rfl (by decide) rfl).1).2 (by decide)

/-- Claim C8: when the recipe loop finishes without a recipe-fatal error
and the run is not a dry run, every recipe of the final recipe set
carries the pass's execution date as `last_run` and that whole set is
persisted to the settings' origin path as the one `save` write; in
dry-run mode the recipes are left unchanged and nothing is persisted. -/
theorem c8_watermark_stamp_and_persist :
    ∀ (env : Env) (o : FileOrganizer) (now : UtcDateTime),
      firstError (runRecipes env o.is_iterative o.is_dry_run o.settings.recipes) = none →
      (o.is_dry_run = false →
          (∀ r ∈ (FileOrganizer.run env o now).finalRecipes,
              r.last_run = some (date_format now "%Y-%m-%d"))
          ∧ (FileOrganizer.run env o now).persisted
              = some (o.settings.path, (FileOrganizer.run env o now).finalRecipes)
          ∧ (FileOrganizer.run env o now).runResult = Except.ok ())
      ∧ (o.is_dry_run = true →
          (FileOrganizer.run env o now).finalRecipes = o.settings.recipes
          ∧ (FileOrganizer.run env o now).persisted = none) := by
  intro env o now h
  constructor
  · intro hdry
    simp only [FileOrganizer.run]
    rw [h, hdry]
    refine ⟨?_, rfl, rfl⟩
    intro r hr
    rcases List.mem_map.mp hr with ⟨r0, _, rfl⟩
    rfl
  · intro hdry
    simp only [FileOrganizer.run]
    rw [h, hdry]
    exact ⟨rfl, rfl⟩

/-- A one-recipe organizer in non-dry-run, iterative mode. -/
def wOrganizer : FileOrganizer := ⟨⟨[recipeA], ["settings.json"]⟩, false, true⟩

/-- The pass's execution instant used by the C8 witness. -/
def wNow : UtcDateTime := ⟨2025, 10, 12, 3, 4, 5⟩

/-- Witness for C8: on a snapshot where the single recipe succeeds, the
pass stamps its `last_run` with 2025-10-12 and persists the stamped
recipe set to the origin path. -/
theorem c8_witness :
    firstError (runRecipes okEnv wOrganizer.is_iterative wOrganizer.is_dry_run
        wOrganizer.settings.recipes) = none
    ∧ (FileOrganizer.run okEnv wOrganizer wNow).finalRecipes.map Recipe.last_run
        = [some "2025-10-12"]
    ∧ (FileOrganizer.run okEnv wOrganizer wNow).persisted
        = some (["settings.json"], (FileOrganizer.run okEnv wOrganizer wNow).finalRecipes) := by
  refine ⟨by decide, by decide, ?_⟩
  exact ((c8_watermark_stamp_and_persist okEnv wOrganizer wNow (by decide)).1 rfl).2.1
